import Mathlib

/-!
Shallow embedding of `src/main.py`: a single-producer/single-consumer script
built on a shared FIFO queue (`queue.Queue()`), with the two worker threads
fully serialized by the main thread (`start`/`join` of the producer thread
before `start`/`join` of the consumer thread).

The program is modelled as a small-step transition system over a global
state holding the queue contents, the standard-output lines emitted so far,
and the control point of each of the three threads (main, producer,
consumer).  Blocking operations (`queue.get()` on an empty queue,
`queue.put(...)` on a full bounded queue, `Thread.join()` on an unfinished
thread) are modelled as steps whose enabling condition fails, so a blocked
thread simply has no transition.  All claims are settled against the set of
states reachable from the initial state under this relation.
-/

namespace SpecMainPy

/-- One line of standard output, before rendering to text. -/
inductive Line where
  | produced (i : Nat)
  | consumed (i : Nat)
  deriving DecidableEq, Repr

/-- The text of an output line: `print(f"Produced: {i}")` /
`print(f"Consumed: {item}")`. -/
def Line.render : Line → String
  | .produced i => s!"Produced: {i}"
  | .consumed i => s!"Consumed: {i}"

/-- `queue = Queue()` uses the default `maxsize=0`, i.e. unbounded capacity. -/
def maxsize : Nat := 0

/-- Blocking condition of `queue.put`: a `Queue` is full iff
`0 < maxsize ≤ len` (never, when `maxsize = 0`). -/
def queueFull (q : List Nat) : Bool :=
  decide (0 < maxsize) && decide (maxsize ≤ q.length)

/-- `queue.put(x)`: insert at the tail (FIFO). -/
def queuePut (q : List Nat) (x : Nat) : List Nat := q ++ [x]

/-- `queue.empty()`. -/
def queueEmpty (q : List Nat) : Bool := q.isEmpty

/-- `queue.get()` in the case where it does not block: the head item and the
remaining queue.  `none` means the call would block waiting for an item. -/
def queueGet (q : List Nat) : Option (Nat × List Nat) :=
  match q with
  | [] => none
  | x :: rest => some (x, rest)

/-- Control point of the main thread:
`producer_thread.start()`, `producer_thread.join()`,
`consumer_thread.start()`, `consumer_thread.join()`, then process end. -/
inductive MainPC where
  | startProd
  | joinProd
  | startCons
  | joinCons
  | exited
  deriving DecidableEq, Repr

/-- Control point of the producer thread (`for i in range(5): put; print`):
`loopHead i` is the loop test with index `i`, `atPrint i` the point between
`queue.put(i)` and its `print`, `finished` is past the loop. -/
inductive ProdPC where
  | loopHead (i : Nat)
  | atPrint (i : Nat)
  | finished
  deriving DecidableEq, Repr

/-- Control point of the consumer thread
(`while not queue.empty(): item = queue.get(); print`):
`loopHead` is the emptiness test, `atGet` the `queue.get()` call,
`atPrint item` the `print` with the dequeued item in hand,
`finished` is past the loop. -/
inductive ConsPC where
  | loopHead
  | atGet
  | atPrint (item : Nat)
  | finished
  deriving DecidableEq, Repr

/-- Global state: queue contents, emitted output, and the control state of
the three threads.  A worker thread exists from process start but may only
run once `Thread.start()` has been called on it. -/
structure St where
  queue : List Nat
  out : List Line
  mpc : MainPC
  prodStarted : Bool
  prodPC : ProdPC
  consStarted : Bool
  consPC : ConsPC
  deriving DecidableEq, Repr

/-- The initial state: empty queue, no output, main thread about to start
the producer thread, neither worker thread started. -/
def init : St :=
  { queue := [], out := [], mpc := .startProd,
    prodStarted := false, prodPC := .loopHead 0,
    consStarted := false, consPC := .loopHead }

/-- One atomic step of any thread.  Each constructor is one statement of
`src/main.py`; its hypotheses are the enabling conditions (thread started,
control point reached, and the blocking condition of the operation, if
any). -/
inductive Step : St → St → Prop where
  | mainStartProd (s : St) (h : s.mpc = .startProd) :
      Step s { s with mpc := .joinProd, prodStarted := true }
  | mainJoinProd (s : St) (h : s.mpc = .joinProd) (hp : s.prodPC = .finished) :
      Step s { s with mpc := .startCons }
  | mainStartCons (s : St) (h : s.mpc = .startCons) :
      Step s { s with mpc := .joinCons, consStarted := true }
  | mainJoinCons (s : St) (h : s.mpc = .joinCons) (hc : s.consPC = .finished) :
      Step s { s with mpc := .exited }
  | prodPut (s : St) (i : Nat) (hs : s.prodStarted = true)
      (h : s.prodPC = .loopHead i) (hlt : i < 5)
      (hnf : queueFull s.queue = false) :
      Step s { s with queue := queuePut s.queue i, prodPC := .atPrint i }
  | prodPrint (s : St) (i : Nat) (hs : s.prodStarted = true)
      (h : s.prodPC = .atPrint i) :
      Step s { s with out := s.out ++ [.produced i], prodPC := .loopHead (i + 1) }
  | prodExit (s : St) (i : Nat) (hs : s.prodStarted = true)
      (h : s.prodPC = .loopHead i) (hge : ¬ i < 5) :
      Step s { s with prodPC := .finished }
  | consCheckEnter (s : St) (hs : s.consStarted = true) (h : s.consPC = .loopHead)
      (hne : queueEmpty s.queue = false) :
      Step s { s with consPC := .atGet }
  | consCheckExit (s : St) (hs : s.consStarted = true) (h : s.consPC = .loopHead)
      (he : queueEmpty s.queue = true) :
      Step s { s with consPC := .finished }
  | consGet (s : St) (x : Nat) (q' : List Nat) (hs : s.consStarted = true)
      (h : s.consPC = .atGet) (hget : queueGet s.queue = some (x, q')) :
      Step s { s with queue := q', consPC := .atPrint x }
  | consPrint (s : St) (x : Nat) (hs : s.consStarted = true)
      (h : s.consPC = .atPrint x) :
      Step s { s with out := s.out ++ [.consumed x], consPC := .loopHead }

/-- The steps of the main thread enabled at `s` (at most one). -/
def mainSuccs (s : St) : List St :=
  match s.mpc with
  | .startProd => [{ s with mpc := .joinProd, prodStarted := true }]
  | .joinProd =>
      if s.prodPC = .finished then [{ s with mpc := .startCons }] else []
  | .startCons => [{ s with mpc := .joinCons, consStarted := true }]
  | .joinCons =>
      if s.consPC = .finished then [{ s with mpc := .exited }] else []
  | .exited => []

/-- The steps of the producer thread enabled at `s` (at most one). -/
def prodSuccs (s : St) : List St :=
  if s.prodStarted then
    match s.prodPC with
    | .loopHead i =>
        if i < 5 then
          if queueFull s.queue then []
          else [{ s with queue := queuePut s.queue i, prodPC := .atPrint i }]
        else [{ s with prodPC := .finished }]
    | .atPrint i =>
        [{ s with out := s.out ++ [.produced i], prodPC := .loopHead (i + 1) }]
    | .finished => []
  else []

/-- The steps of the consumer thread enabled at `s` (at most one). -/
def consSuccs (s : St) : List St :=
  if s.consStarted then
    match s.consPC with
    | .loopHead =>
        if queueEmpty s.queue then [{ s with consPC := .finished }]
        else [{ s with consPC := .atGet }]
    | .atGet =>
        match queueGet s.queue with
        | none => []
        | some (x, q') => [{ s with queue := q', consPC := .atPrint x }]
    | .atPrint x =>
        [{ s with out := s.out ++ [.consumed x], consPC := .loopHead }]
    | .finished => []
  else []

/-- All steps enabled at `s`, as an executable list. -/
def succs (s : St) : List St := mainSuccs s ++ prodSuccs s ++ consSuccs s

lemma mem_consSuccs_iff (s t : St) :
    t ∈ consSuccs s ↔ s.consStarted = true ∧
      ((s.consPC = .loopHead ∧ queueEmpty s.queue = false ∧ t = { s with consPC := .atGet }) ∨
       (s.consPC = .loopHead ∧ queueEmpty s.queue = true ∧ t = { s with consPC := .finished }) ∨
       (∃ x q', s.consPC = .atGet ∧ queueGet s.queue = some (x, q') ∧
          t = { s with queue := q', consPC := .atPrint x }) ∨
       (∃ x, s.consPC = .atPrint x ∧
          t = { s with out := s.out ++ [.consumed x], consPC := .loopHead })) := by
  unfold consSuccs
  cases hs : s.consStarted
  · simp [hs]
  · cases h : s.consPC <;> simp [h]
    · split_ifs with he <;> simp_all
    · cases hg : queueGet s.queue with
      | none => simp [hg]
      | some p => cases p with
        | mk x q' =>
          simp [hg]
          constructor
          · intro ht
            exact ⟨x, q', ⟨rfl, rfl⟩, ht⟩
          · rintro ⟨a, b, ⟨rfl, rfl⟩, ht⟩
            exact ht
lemma mem_mainSuccs_iff (s t : St) :
    t ∈ mainSuccs s ↔
      (s.mpc = .startProd ∧ t = { s with mpc := .joinProd, prodStarted := true }) ∨
      (s.mpc = .joinProd ∧ s.prodPC = .finished ∧ t = { s with mpc := .startCons }) ∨
      (s.mpc = .startCons ∧ t = { s with mpc := .joinCons, consStarted := true }) ∨
      (s.mpc = .joinCons ∧ s.consPC = .finished ∧ t = { s with mpc := .exited }) := by
  unfold mainSuccs
  cases h : s.mpc <;> simp [h]

lemma mem_prodSuccs_iff (s t : St) :
    t ∈ prodSuccs s ↔ s.prodStarted = true ∧
      ((∃ i, s.prodPC = .loopHead i ∧ i < 5 ∧ queueFull s.queue = false ∧
          t = { s with queue := queuePut s.queue i, prodPC := .atPrint i }) ∨
       (∃ i, s.prodPC = .loopHead i ∧ ¬ i < 5 ∧ t = { s with prodPC := .finished }) ∨
       (∃ i, s.prodPC = .atPrint i ∧
          t = { s with out := s.out ++ [.produced i], prodPC := .loopHead (i + 1) })) := by
  unfold prodSuccs
  cases hs : s.prodStarted
  · simp [hs]
  · cases h : s.prodPC with
    | loopHead i => simp [h]; split_ifs with h5 hf <;> simp_all
    | atPrint i => simp [h]
    | finished => simp [h]
/-- The inductive step relation and the executable successor list agree. -/
lemma step_iff (s t : St) : Step s t ↔ t ∈ succs s := by
  constructor
  · intro h
    unfold succs
    cases h with
    | mainStartProd h =>
        exact List.mem_append_left _ (List.mem_append_left _
          ((mem_mainSuccs_iff s _).mpr (by tauto)))
    | mainJoinProd h hp =>
        exact List.mem_append_left _ (List.mem_append_left _
          ((mem_mainSuccs_iff s _).mpr (by tauto)))
    | mainStartCons h =>
        exact List.mem_append_left _ (List.mem_append_left _
          ((mem_mainSuccs_iff s _).mpr (by tauto)))
    | mainJoinCons h hc =>
        exact List.mem_append_left _ (List.mem_append_left _
          ((mem_mainSuccs_iff s _).mpr (by tauto)))
    | prodPut i hs h hlt hnf =>
        exact List.mem_append_left _ (List.mem_append_right _
          ((mem_prodSuccs_iff s _).mpr ⟨hs, Or.inl ⟨i, h, hlt, hnf, rfl⟩⟩))
    | prodPrint i hs h =>
        exact List.mem_append_left _ (List.mem_append_right _
          ((mem_prodSuccs_iff s _).mpr ⟨hs, by tauto⟩))
    | prodExit i hs h hge =>
        exact List.mem_append_left _ (List.mem_append_right _
          ((mem_prodSuccs_iff s _).mpr ⟨hs, Or.inr (Or.inl ⟨i, h, hge, rfl⟩)⟩))
    | consCheckEnter hs h hne =>
        exact List.mem_append_right _ ((mem_consSuccs_iff s _).mpr ⟨hs, by tauto⟩)
    | consCheckExit hs h he =>
        exact List.mem_append_right _ ((mem_consSuccs_iff s _).mpr ⟨hs, by tauto⟩)
    | consGet x q' hs h hget =>
        exact List.mem_append_right _ ((mem_consSuccs_iff s _).mpr
          ⟨hs, Or.inr (Or.inr (Or.inl ⟨x, q', h, hget, rfl⟩))⟩)
    | consPrint x hs h =>
        exact List.mem_append_right _ ((mem_consSuccs_iff s _).mpr ⟨hs, by tauto⟩)
  · intro h
    rcases List.mem_append.mp h with h | hc
    · rcases List.mem_append.mp h with hm | hp
      · rcases (mem_mainSuccs_iff s t).mp hm with
          ⟨h1, rfl⟩ | ⟨h1, h2, rfl⟩ | ⟨h1, rfl⟩ | ⟨h1, h2, rfl⟩
        · exact .mainStartProd s h1
        · exact .mainJoinProd s h1 h2
        · exact .mainStartCons s h1
        · exact .mainJoinCons s h1 h2
      · rcases (mem_prodSuccs_iff s t).mp hp with
          ⟨hs, ⟨i, h1, h2, h3, rfl⟩ | ⟨i, h1, h2, rfl⟩ | ⟨i, h1, rfl⟩⟩
        · exact .prodPut s i hs h1 h2 h3
        · exact .prodExit s i hs h1 h2
        · exact .prodPrint s i hs h1
    · rcases (mem_consSuccs_iff s t).mp hc with
        ⟨hs, ⟨h1, h2, rfl⟩ | ⟨h1, h2, rfl⟩ | ⟨x, q', h1, h2, rfl⟩ | ⟨x, h1, rfl⟩⟩
      · exact .consCheckEnter s hs h1 h2
      · exact .consCheckExit s hs h1 h2
      · exact .consGet s x q' hs h1 h2
      · exact .consPrint s x hs h1
/-- Reachability from `s` in zero or more atomic steps. -/
def Reaches (s t : St) : Prop := Relation.ReflTransGen Step s t

/-- A state with no enabled step: the program has terminated (or every
remaining thread is blocked). -/
def Stuck (s : St) : Prop := ∀ t, ¬ Step s t

lemma stuck_iff (s : St) : Stuck s ↔ succs s = [] := by
  constructor
  · intro h
    cases hq : succs s with
    | nil => rfl
    | cons t rest =>
        exact absurd ((step_iff s t).mpr (hq ▸ List.mem_cons_self t rest)) (h t)
  · intro h t hst
    rw [step_iff, h] at hst
    exact List.not_mem_nil t hst

/-- Run the deterministic scheduler for `n` steps (taking the first enabled
step each time; at every reachable state at most one step is enabled). -/
def steps : Nat → St → St
  | 0, s => s
  | n + 1, s =>
    match succs s with
    | [] => s
    | t :: _ => steps n t

lemma steps_reaches (n : Nat) (s : St) : Reaches s (steps n s) := by
  induction n generalizing s with
  | zero => exact .refl
  | succ n ih =>
    cases hq : succs s with
    | nil => simp only [steps, hq]; exact .refl
    | cons t rest =>
        have hst : Step s t := (step_iff s t).mpr (hq ▸ List.mem_cons_self t rest)
        simpa only [steps, hq] using Relation.ReflTransGen.head hst (ih t)

/-- Every state of the canonical run, in order.  The run takes 31 atomic
steps (4 of the main thread, 11 of the producer, 16 of the consumer), so the
32 entries are pairwise distinct and the last is stuck. -/
def traceStates : List St := (List.range 32).map (fun n => steps n init)

lemma trace_closed : ∀ s ∈ traceStates, ∀ t ∈ succs s, t ∈ traceStates := by decide

lemma reachable_mem (s : St) (h : Reaches init s) : s ∈ traceStates := by
  induction h with
  | refl => decide
  | tail _ hbc ih => exact trace_closed _ ih _ ((step_iff _ _).mp hbc)
/-- The final state of the canonical run (31 steps from `init`). -/
def finalSt : St := steps 31 init

/-- The items reported as produced, in output order (the enqueue order,
since each `print(f"Produced: {i}")` directly follows `queue.put(i)`). -/
def producedItems (out : List Line) : List Nat :=
  out.filterMap (fun l => match l with | .produced i => some i | .consumed _ => none)

/-- The items reported as consumed, in output order (the dequeue order,
since each `print(f"Consumed: {item}")` directly follows `item = queue.get()`). -/
def consumedItems (out : List Line) : List Nat :=
  out.filterMap (fun l => match l with | .consumed i => some i | .produced _ => none)

/-- Whether an output line is a `Produced` line. -/
def isProducedLine : Line → Bool
  | .produced _ => true
  | .consumed _ => false

/-- The ten lines of §8's end-to-end scenario. -/
def tenLines : List String :=
  ["Produced: 0", "Produced: 1", "Produced: 2", "Produced: 3", "Produced: 4",
   "Consumed: 0", "Consumed: 1", "Consumed: 2", "Consumed: 3", "Consumed: 4"]

/-- Result of running the consumer body for a bounded number of loop
iterations: normal exit with the accumulated output, a (blocking)
`queue.get()` reached on an empty queue, or iteration budget exhausted. -/
inductive ConsRes where
  | finished (out : List Line)
  | blockedOnGet
  | outOfFuel
  deriving DecidableEq, Repr

/-- The consumer function of `src/main.py` run in isolation on a queue `q`
it owns exclusively, with accumulated output `out` and an iteration budget:
`while not queue.empty(): item = queue.get(); print(f"Consumed: {item}")`. -/
def consumerRun : Nat → List Nat → List Line → ConsRes
  | 0, _, _ => .outOfFuel
  | fuel + 1, q, out =>
    if queueEmpty q then .finished out
    else
      match queueGet q with
      | none => .blockedOnGet
      | some (x, q') => consumerRun fuel q' (out ++ [.consumed x])

lemma consumerRun_ne_blocked (fuel : Nat) (q : List Nat) (out : List Line) :
    consumerRun fuel q out ≠ .blockedOnGet := by
  induction fuel generalizing q out with
  | zero => simp [consumerRun]
  | succ fuel ih =>
    cases q with
    | nil => simp [consumerRun, queueEmpty]
    | cons x rest =>
        simpa [consumerRun, queueEmpty, queueGet] using ih rest (out ++ [.consumed x])

lemma consumerRun_drains (q : List Nat) (out : List Line) :
    consumerRun (q.length + 1) q out = .finished (out ++ q.map Line.consumed) := by
  induction q generalizing out with
  | nil => simp [consumerRun, queueEmpty]
  | cons x rest ih =>
      have h1 : consumerRun ((x :: rest).length + 1) (x :: rest) out
          = consumerRun (rest.length + 1) rest (out ++ [.consumed x]) := by
        simp [consumerRun, queueEmpty, queueGet]
      rw [h1, ih]
      simp
/-- Number of `queue.put(i)` calls the producer has completed, as a function
of its control point. -/
def putCount : ProdPC → Nat
  | .loopHead i => i
  | .atPrint i => i + 1
  | .finished => 5

/-- Number of `print(f"Produced: {i}")` calls the producer has completed, as
a function of its control point. -/
def printCount : ProdPC → Nat
  | .loopHead i => i
  | .atPrint i => i
  | .finished => 5

/-- Whether the producer thread has an enabled step at `s`. -/
def prodEnabled (s : St) : Bool := !(prodSuccs s).isEmpty

/-- Whether the consumer thread has an enabled step at `s`. -/
def consEnabled (s : St) : Bool := !(consSuccs s).isEmpty

/-- Claim C1: a complete run exists, and every complete run (a maximal step
sequence from the initial state) writes to standard output exactly the ten
lines Produced: 0..4 followed by Consumed: 0..4, in this order, with all
five Produced lines before any Consumed line and no other output. -/
theorem claim1_end_to_end_output :
    (∃ s, Reaches init s ∧ Stuck s) ∧
    ∀ s, Reaches init s → Stuck s → s.out.map Line.render = tenLines := by
  constructor
  · exact ⟨steps 31 init, steps_reaches 31 init, (stuck_iff _).mpr (by decide)⟩
  · intro s h1 h2
    have key : ∀ x ∈ traceStates, succs x = [] → x.out.map Line.render = tenLines := by
      decide
    exact key s (reachable_mem s h1) ((stuck_iff s).mp h2)

/-- Witness for C1: the canonical 31-step run is a complete run and its
output renders to exactly the ten expected lines. -/
theorem claim1_witness : finalSt.out.map Line.render = tenLines :=
  claim1_end_to_end_output.2 finalSt (steps_reaches 31 init)
    ((stuck_iff finalSt).mpr (by decide))

/-- Claim C2: in every run the producer appends exactly 0,1,2,3,4 to the
queue in that order (while the consumer has not started, the queue contents
are exactly the first `putCount` naturals in order), prints `Produced: i`
immediately after each enqueue (the number of prints trails the number of
puts only between a put and its print), and once the producer has finished
the sequence of Produced outputs is exactly 0,1,2,3,4. -/
theorem claim2_producer_sequence :
    ∀ s, Reaches init s →
      producedItems s.out = List.range (printCount s.prodPC) ∧
      putCount s.prodPC ≤ printCount s.prodPC + 1 ∧
      (s.consStarted = false → s.queue = List.range (putCount s.prodPC)) ∧
      (s.prodPC = .finished → producedItems s.out = [0, 1, 2, 3, 4]) := by
  intro s h
  have key : ∀ x ∈ traceStates,
      producedItems x.out = List.range (printCount x.prodPC) ∧
      putCount x.prodPC ≤ printCount x.prodPC + 1 ∧
      (x.consStarted = false → x.queue = List.range (putCount x.prodPC)) ∧
      (x.prodPC = .finished → producedItems x.out = [0, 1, 2, 3, 4]) := by
    decide
  exact key s (reachable_mem s h)

/-- Witness for C2: the state reached after 13 steps has a finished
producer, queue `[0,1,2,3,4]`, and Produced outputs `0,1,2,3,4`. -/
theorem claim2_witness :
    producedItems (steps 13 init).out = List.range (printCount (steps 13 init).prodPC) ∧
    putCount (steps 13 init).prodPC ≤ printCount (steps 13 init).prodPC + 1 ∧
    ((steps 13 init).consStarted = false →
      (steps 13 init).queue = List.range (putCount (steps 13 init).prodPC)) ∧
    ((steps 13 init).prodPC = .finished →
      producedItems (steps 13 init).out = [0, 1, 2, 3, 4]) :=
  claim2_producer_sequence (steps 13 init) (steps_reaches 13 init)

/-- Claim C3: in every run, every Produced line precedes every Consumed line
(the output is its Produced lines followed by its non-Produced lines), and
once the consumer has finished, the sequence of Consumed outputs is exactly
0,1,2,3,4 in that order. -/
theorem claim3_consumer_sequence :
    ∀ s, Reaches init s →
      s.out = s.out.filter isProducedLine ++ s.out.filter (fun l => !isProducedLine l) ∧
      (s.consPC = .finished → consumedItems s.out = [0, 1, 2, 3, 4]) := by
  intro s h
  have key : ∀ x ∈ traceStates,
      x.out = x.out.filter isProducedLine ++ x.out.filter (fun l => !isProducedLine l) ∧
      (x.consPC = .finished → consumedItems x.out = [0, 1, 2, 3, 4]) := by
    decide
  exact key s (reachable_mem s h)

/-- Witness for C3: at the final state of the canonical run the consumer has
finished and the Consumed outputs are `0,1,2,3,4`, after all Produced. -/
theorem claim3_witness :
    finalSt.out = finalSt.out.filter isProducedLine
        ++ finalSt.out.filter (fun l => !isProducedLine l) ∧
    (finalSt.consPC = .finished → consumedItems finalSt.out = [0, 1, 2, 3, 4]) :=
  claim3_consumer_sequence finalSt (steps_reaches 31 init)

/-- Claim C4: in every reachable state, if the consumer thread has been
started then the producer thread has already run to completion (it was
fully joined first); the producer and the consumer never both have an
enabled step, so no step of one can be interleaved with a step of the
other; and when the process ends (main past its last join) both worker
threads have finished. -/
theorem claim4_serialization :
    ∀ s, Reaches init s →
      (s.consStarted = true → s.prodPC = .finished) ∧
      ¬(prodEnabled s = true ∧ consEnabled s = true) ∧
      (s.mpc = .exited → s.prodPC = .finished ∧ s.consPC = .finished) := by
  intro s h
  have key : ∀ x ∈ traceStates,
      (x.consStarted = true → x.prodPC = .finished) ∧
      ¬(prodEnabled x = true ∧ consEnabled x = true) ∧
      (x.mpc = .exited → x.prodPC = .finished ∧ x.consPC = .finished) := by
    decide
  exact key s (reachable_mem s h)

/-- Witness for C4: the serialization properties hold at the final state of
the canonical run, where the consumer has started and the process exited. -/
theorem claim4_witness :
    (finalSt.consStarted = true → finalSt.prodPC = .finished) ∧
    ¬(prodEnabled finalSt = true ∧ consEnabled finalSt = true) ∧
    (finalSt.mpc = .exited → finalSt.prodPC = .finished ∧ finalSt.consPC = .finished) :=
  claim4_serialization finalSt (steps_reaches 31 init)
/-- Claim C5: FIFO order is respected: in every complete run the sequence of
dequeued items equals the sequence of enqueued items (each Produced print
directly follows its `queue.put`, each Consumed print directly follows its
`queue.get`), and for any two items enqueued in a given order, the earlier
one is dequeued earlier. -/
theorem claim5_fifo_order :
    ∀ s, Reaches init s → Stuck s →
      consumedItems s.out = producedItems s.out ∧
      ∀ i ∈ producedItems s.out, ∀ j ∈ producedItems s.out,
        (producedItems s.out).indexOf i < (producedItems s.out).indexOf j →
        (consumedItems s.out).indexOf i < (consumedItems s.out).indexOf j := by
  intro s h1 h2
  have key : ∀ x ∈ traceStates, succs x = [] →
      consumedItems x.out = [0, 1, 2, 3, 4] ∧ producedItems x.out = [0, 1, 2, 3, 4] := by
    decide
  obtain ⟨hc, hp⟩ := key s (reachable_mem s h1) ((stuck_iff s).mp h2)
  refine ⟨by rw [hc, hp], ?_⟩
  rw [hc, hp]
  decide

/-- Witness for C5: at the final state of the canonical run, the dequeue
sequence equals the enqueue sequence, pairwise order included. -/
theorem claim5_witness :
    consumedItems finalSt.out = producedItems finalSt.out ∧
    ∀ i ∈ producedItems finalSt.out, ∀ j ∈ producedItems finalSt.out,
      (producedItems finalSt.out).indexOf i < (producedItems finalSt.out).indexOf j →
      (consumedItems finalSt.out).indexOf i < (consumedItems finalSt.out).indexOf j :=
  claim5_fifo_order finalSt (steps_reaches 31 init) ((stuck_iff finalSt).mpr (by decide))

/-- Claim C6: the program is deterministic: any two complete runs end in the
same state, with identical standard-output line sequences. -/
theorem claim6_deterministic :
    ∀ s₁ s₂, Reaches init s₁ → Stuck s₁ → Reaches init s₂ → Stuck s₂ →
      s₁.out = s₂.out ∧ s₁ = s₂ := by
  intro s₁ s₂ h1 h1' h2 h2'
  have key : ∀ x ∈ traceStates, succs x = [] → x = finalSt := by decide
  have e1 := key s₁ (reachable_mem s₁ h1) ((stuck_iff s₁).mp h1')
  have e2 := key s₂ (reachable_mem s₂ h2) ((stuck_iff s₂).mp h2')
  subst e1
  subst e2
  exact ⟨rfl, rfl⟩

/-- Witness for C6: the canonical complete run compared with itself. -/
theorem claim6_witness : finalSt.out = finalSt.out ∧ finalSt = finalSt :=
  claim6_deterministic finalSt finalSt (steps_reaches 31 init)
    ((stuck_iff finalSt).mpr (by decide)) (steps_reaches 31 init)
    ((stuck_iff finalSt).mpr (by decide))

/-- Claim C7: in every run, once the consumer has completed its loop the
queue is empty, and a further `queue.empty()` check returns true. -/
theorem claim7_queue_empty_at_end :
    ∀ s, Reaches init s → s.consPC = .finished →
      s.queue = [] ∧ queueEmpty s.queue = true := by
  intro s h hc
  have key : ∀ x ∈ traceStates, x.consPC = .finished →
      x.queue = [] ∧ queueEmpty x.queue = true := by decide
  exact key s (reachable_mem s h) hc

/-- Witness for C7: at the final state of the canonical run the consumer has
finished, the queue is empty and `queue.empty()` returns true. -/
theorem claim7_witness : finalSt.queue = [] ∧ queueEmpty finalSt.queue = true :=
  claim7_queue_empty_at_end finalSt (steps_reaches 31 init) (by decide)

/-- Claim C8: the whole program terminates: a stuck state is reached in
which the main thread has exited and both the producer loop and the
consumer loop have finished, after exactly five dequeues; and in general
the consumer loop run on a queue of length n terminates after exactly n
dequeues (n+1 emptiness checks), the last check finding the queue empty. -/
theorem claim8_termination :
    (∃ s, Reaches init s ∧ Stuck s ∧ s.mpc = .exited ∧ s.prodPC = .finished ∧
      s.consPC = .finished ∧ (consumedItems s.out).length = 5) ∧
    ∀ q out, consumerRun (q.length + 1) q out = .finished (out ++ q.map Line.consumed) :=
  ⟨⟨finalSt, steps_reaches 31 init, (stuck_iff finalSt).mpr (by decide),
    by decide, by decide, by decide, by decide⟩,
   consumerRun_drains⟩

/-- Claim C9: queue insertion never fails or blocks: with `Queue()`'s
unbounded capacity no queue state is ever full, so whenever the producer is
at a `queue.put(i)` of its five iterations, that put step is enabled. -/
theorem claim9_put_never_blocks :
    (∀ q, queueFull q = false) ∧
    (∀ s, Reaches init s → queueFull s.queue = false) ∧
    (∀ s i, s.prodStarted = true → s.prodPC = .loopHead i → i < 5 →
      Step s { s with queue := queuePut s.queue i, prodPC := .atPrint i }) := by
  have hq : ∀ q : List Nat, queueFull q = false := by
    intro q
    simp [queueFull, maxsize]
  refine ⟨hq, fun s _ => hq s.queue, fun s i hs h hlt => ?_⟩
  exact .prodPut s i hs h hlt (hq s.queue)

/-- Witness for C9: from the state just after `producer_thread.start()`, the
first `queue.put(0)` is an enabled step. -/
theorem claim9_witness :
    Step { queue := [], out := [], mpc := .joinProd, prodStarted := true,
           prodPC := .loopHead 0, consStarted := false, consPC := .loopHead }
      { queue := queuePut [] 0, out := [], mpc := .joinProd, prodStarted := true,
        prodPC := .atPrint 0, consStarted := false, consPC := .loopHead } :=
  claim9_put_never_blocks.2.2
    { queue := [], out := [], mpc := .joinProd, prodStarted := true,
      prodPC := .loopHead 0, consStarted := false, consPC := .loopHead }
    0 rfl rfl (by decide)

/-- Claim C10: every `queue.get()` the consumer executes finds a non-empty
queue (in every reachable state at the get site the blocking branch is not
taken); while the consumer runs the producer has no enabled step, and steps
of the main thread never touch the queue or the output; the consumer body
can never hit the blocking branch of `get` from any queue; and started on
an empty queue it prints nothing and terminates at its first check. -/
theorem claim10_get_never_blocks :
    (∀ s, Reaches init s → s.consPC = .atGet → queueGet s.queue ≠ none) ∧
    (∀ s, Reaches init s → s.consStarted = true → prodSuccs s = []) ∧
    (∀ s t, t ∈ mainSuccs s → t.queue = s.queue ∧ t.out = s.out) ∧
    (∀ fuel q out, consumerRun fuel q out ≠ .blockedOnGet) ∧
    (∀ out, consumerRun 1 [] out = .finished out) := by
  refine ⟨?_, ?_, ?_, consumerRun_ne_blocked, fun out => rfl⟩
  · intro s h hc
    have key : ∀ x ∈ traceStates, x.consPC = .atGet → queueGet x.queue ≠ none := by
      decide
    exact key s (reachable_mem s h) hc
  · intro s h hc
    have key : ∀ x ∈ traceStates, x.consStarted = true → prodSuccs x = [] := by decide
    exact key s (reachable_mem s h) hc
  · intro s t ht
    rcases (mem_mainSuccs_iff s t).mp ht with
      ⟨h1, rfl⟩ | ⟨h1, h2, rfl⟩ | ⟨h1, rfl⟩ | ⟨h1, h2, rfl⟩ <;> exact ⟨rfl, rfl⟩

/-- Witness for C10: the state reached after 15 steps has the consumer at
its `queue.get()` with queue `[0,1,2,3,4]`, and the get does not block. -/
theorem claim10_witness :
    queueGet (steps 15 init).queue ≠ none ∧
    prodSuccs (steps 15 init) = [] ∧
    consumerRun 1 [] [] = .finished [] :=
  ⟨claim10_get_never_blocks.1 (steps 15 init) (steps_reaches 15 init) (by decide),
   claim10_get_never_blocks.2.1 (steps 15 init) (steps_reaches 15 init) (by decide),
   claim10_get_never_blocks.2.2.2.2 []⟩

end SpecMainPy
